import Mathlib

/-!
Shallow embedding of the order-placement core of a retail storefront server
(Express + Prisma + PostgreSQL).  The embedded code is the `POST /` handler of
`src/routes/orders.js` (order creation), together with the pieces of the data
model it touches (`prisma/schema.prisma`) and the catalog variant update of
`src/routes/admin.js` (`PUT /products/:id`, the `prisma.product_variants.update`
call at lines 251-260).

Modelling decisions, stated once here:
* Database `Int` columns are `Int` (unbounded; 32-bit overflow is out of scope),
  `Decimal(10,2)` columns are `ℚ`.  `String?` columns are modelled as `String`
  (the claims under study never hinge on SQL NULL text fields).
* JavaScript numbers are IEEE-754 binary64 values.  Monetary arithmetic in the
  handler (`totalAmount += variant.price * item.quantity`) is JS number
  arithmetic: Prisma returns `Decimal` objects for decimal columns, and the
  `*` operator coerces such an object through its string value to a binary64
  number.  We embed binary64 rounding exactly on `ℚ` (round to nearest, ties to
  even, 53-bit significand, unbounded exponent; overflow and subnormals cannot
  occur for the in-range monetary values considered here).
* Request bodies are JSON, so an item field may be absent: request items carry
  `Option` fields, and the JS falsiness tests (`!item.variant_id`,
  `!item.quantity`, `payment_method || 'Credit Card'`) are embedded on them
  (absent and zero/empty are falsy; `NaN` is not modelled).
* `prisma.$transaction(cb)` runs `cb` against the current state and commits its
  final state on success; if `cb` throws, every write it performed is rolled
  back.  We embed this by state passing: the callback is a function from state
  to `Except`, and the caller keeps the original state on `Except.error`.
  Runtime failures of individual statements inside the callback (the database
  going away, etc.) are modelled by a fault-injection record `Faults`.
* Prisma validates `Int` fields of a `create`/`update` payload and throws on a
  non-integer JS number; `update where id = x` throws when no row matches.
-/

namespace Shop

/-- database row of `product_variants` joined with its product
(`include: { products: true }`); `product_name` is `products.name`. -/
structure Variant where
  id : Int
  product_name : String
  size : String
  color : String
  edition : String
  price : ℚ
  stock_qty : Int
  deriving Repr, DecidableEq

/-- database row of `cart_items`. -/
structure CartItem where
  id : Int
  user_id : Int
  variant_id : Int
  quantity : Int
  deriving Repr, DecidableEq

/-- database row of `order_items` (the immutable order-line snapshot).
`quantity` is kept as the JS number the handler received; Prisma rejects the
row at creation time when it is not an integer. -/
structure OrderItemRec where
  variant_id : Int
  product_name : String
  size : String
  color : String
  edition : String
  unit_price : ℚ
  quantity : ℚ
  deriving Repr, DecidableEq

/-- database row of `orders`, with its owned `order_items` embedded
(`order_items: { create: orderItems }`, cascade ownership). -/
structure OrderRec where
  id : Int
  user_id : Int
  total_amount : ℚ
  payment_method : String
  is_paid : Bool
  status : String
  order_items : List OrderItemRec
  deriving Repr, DecidableEq

/-- database row of `activity_logs`. -/
structure LogRec where
  user_id : Int
  action : String
  description : String
  deriving Repr, DecidableEq

/-- the persistent state touched by order placement: the five participating
tables plus the `orders` autoincrement counter (needed because the activity-log
description interpolates the new order id). -/
structure DB where
  variants : List Variant
  cart_items : List CartItem
  orders : List OrderRec
  activity_logs : List LogRec
  nextOrderId : Int
  deriving Repr, DecidableEq

/-- one entry of the request body `items` array; fields may be absent. -/
structure ReqItem where
  variant_id : Option Int
  quantity : Option ℚ
  deriving Repr, DecidableEq

deriving instance DecidableEq for Except

/-- error outcomes of the order-creation handler, one per distinct response it
produces.  `insufficientStock` carries the message string the handler builds,
because that message is all the context the surfaced error carries.
`persistence` covers the catch-all 500 path (any throw inside the handler,
including transaction failures). -/
inductive OrderError where
  | emptyOrder
  | invalidItem
  | variantNotFound
  | insufficientStock (message : String)
  | persistence
  deriving Repr, DecidableEq

/-! ### Exact model of IEEE-754 binary64 rounding on `ℚ` -/

/-- floor base-two logarithm of a natural number, by structural recursion on a
fuel argument (`Nat.log2` itself is defined by well-founded recursion, which
the kernel cannot evaluate; `natLog2 0 = 0`). -/
def log2Fuel : Nat → Nat → Nat
  | 0, _ => 0
  | fuel + 1, n => if n ≤ 1 then 0 else log2Fuel fuel (n / 2) + 1

/-- floor base-two logarithm of a natural number. -/
def natLog2 (n : Nat) : Nat := log2Fuel n n

/-- test whether the positive rational `a / d` is below `2 ^ e`, by integer
arithmetic. -/
def ltPow2 (a d : Nat) (e : Int) : Bool :=
  if 0 ≤ e then a < 2 ^ e.toNat * d else a * 2 ^ (-e).toNat < d

/-- floor of the base-two logarithm of the positive rational `a / d`. -/
def pairLog2 (a d : Nat) : Int :=
  let e0 : Int := (natLog2 a : Int) - (natLog2 d : Int)
  if ltPow2 a d e0 then e0 - 1 else e0

/-- IEEE-754 binary64 round-to-nearest, ties-to-even of the rational `n / d`
(`d ≠ 0`), with a 53-bit significand and unbounded exponent (no overflow or
subnormal handling, which is exact for the normal-range magnitudes appearing
in monetary sums).  Implemented with integer arithmetic throughout so that it
evaluates by kernel reduction. -/
def roundPair (n : Int) (d : Nat) : ℚ :=
  if n = 0 then 0
  else
    let a := n.natAbs
    let e := pairLog2 a d
    let s : Nat × Nat :=
      if 0 ≤ 52 - e then (a * 2 ^ (52 - e).toNat, d) else (a, d * 2 ^ (e - 52).toNat)
    let nfl := s.1 / s.2
    let rem := s.1 % s.2
    let n2 : Nat :=
      if 2 * rem < s.2 then nfl
      else if s.2 < 2 * rem then nfl + 1
      else if nfl % 2 = 0 then nfl else nfl + 1
    let nd : Int × Nat :=
      if 0 ≤ e - 52 then ((n2 : Int) * 2 ^ (e - 52).toNat, 1)
      else ((n2 : Int), 2 ^ (52 - e).toNat)
    mkRat (if n < 0 then -nd.1 else nd.1) nd.2

/-- binary64 value nearest to an exact rational (e.g. the result of coercing a
decimal string to a JS number). -/
def round64 (q : ℚ) : ℚ := roundPair q.num q.den

/-- addition of two binary64 values as JavaScript performs it: the exact sum,
rounded back to binary64. -/
def jsAdd (x y : ℚ) : ℚ :=
  roundPair (x.num * (y.den : Int) + y.num * (x.den : Int)) (x.den * y.den)

/-- multiplication of two binary64 values as JavaScript performs it: the exact
product, rounded back to binary64. -/
def jsMul (x y : ℚ) : ℚ := roundPair (x.num * y.num) (x.den * y.den)

/-- test that a JS number is an integer (what Prisma accepts for an `Int`
column). -/
def isJsInt (q : ℚ) : Bool := q.den = 1

/-! ### Embedding of the order-creation handler (`POST /` in orders.js) -/

/-- embedding of `payment_method || 'Credit Card'`: JS `||` takes the fallback
on any falsy left operand; for an optional string field the falsy cases are
absent/null and the empty string. -/
def jsOrDefault (pm : Option String) (dflt : String) : String :=
  match pm with
  | none => dflt
  | some s => if s = "" then dflt else s

/-- embedding of the per-item validation test
`!item.variant_id || !item.quantity || item.quantity < 1`
(`true` means the item is rejected).  Absent and `0` are falsy. -/
def itemInvalid (it : ReqItem) : Bool :=
  (match it.variant_id with | none => true | some v => decide (v = 0)) ||
  (match it.quantity with | none => true | some q => decide (q = 0) || decide (q < 1))

/-- projection of validated items to `(variant_id, quantity)` pairs; the
defaults are never used on a request that passed validation. -/
def normalizeItems (items : List ReqItem) : List (Int × ℚ) :=
  items.map fun it => (it.variant_id.getD 0, it.quantity.getD 0)

/-- embedding of
`prisma.product_variants.findMany({ where: { id: { in: variantIds } }, include: { products: true } })`:
the stored rows whose id occurs in the requested list, in table order, each at
most once. -/
def findManyByIds (st : DB) (ids : List Int) : List Variant :=
  st.variants.filter fun v => decide (v.id ∈ ids)

/-- message of the insufficient-stock response:
`Not enough stock for "NAME" (COLOR, SIZE)`. -/
def stockMessage (v : Variant) : String :=
  let name := v.product_name
  let color := v.color
  let size := v.size
  s!"Not enough stock for \"{name}\" ({color}, {size})"

/-- order-line snapshot pushed onto `orderItems` for one validated item. -/
def mkOrderItem (v : Variant) (q : ℚ) : OrderItemRec :=
  { variant_id := v.id
    product_name := v.product_name
    size := v.size
    color := v.color
    edition := v.edition
    unit_price := v.price
    quantity := q }

/-- embedding of the availability-check / total-accumulation / snapshot loop
(`for (const item of items) { ... }` over the fetched variants).  The running
total is a JS number: the `Decimal` price is coerced to binary64 and the
multiply and add each round.  The `none` branch of `find?` is the handler
dereferencing `undefined` (a `TypeError` caught by the catch-all), unreachable
once the existence check passed. -/
def buildLines (variants : List Variant) :
    List (Int × ℚ) → ℚ → List OrderItemRec → Except OrderError (ℚ × List OrderItemRec)
  | [], total, acc => .ok (total, acc.reverse)
  | (vid, q) :: rest, total, acc =>
    match variants.find? (fun v => decide (v.id = vid)) with
    | none => .error .persistence
    | some v =>
      if (v.stock_qty : ℚ) < q then .error (.insufficientStock (stockMessage v))
      else
        buildLines variants rest (jsAdd total (jsMul (round64 v.price) q))
          (mkOrderItem v q :: acc)

/-- fault-injection record: which statement inside the transaction callback
throws at runtime (simulating database failure), if any. -/
structure Faults where
  failCreate : Bool
  failDecrement : Int → Bool
  failClearCart : Bool
  failLog : Bool

/-- the fault-free run. -/
def noFaults : Faults :=
  { failCreate := false, failDecrement := fun _ => false
    failClearCart := false, failLog := false }

/-- embedding of
`tx.product_variants.update({ where: { id }, data: { stock_qty: { decrement: amount } } })`:
fails only when no row matches the id; otherwise the subtraction is
unconditional (the `Int` column accepts negative values). -/
def decrementStock (st : DB) (vid : Int) (amount : Int) : Except Unit DB :=
  if st.variants.any (fun v => decide (v.id = vid)) then
    .ok { st with
      variants := st.variants.map fun v =>
        if v.id = vid then { v with stock_qty := v.stock_qty - amount } else v }
  else .error ()

/-- embedding of the per-item stock-update loop inside the transaction.
`createOrder` has already enforced that all quantities are integers, so the
integrality guard (Prisma rejecting a non-integer decrement) never fires after
a successful create. -/
def decrementLoop (f : Faults) : DB → List (Int × ℚ) → Except Unit DB
  | st, [] => .ok st
  | st, (vid, q) :: rest =>
    if f.failDecrement vid then .error ()
    else if isJsInt q then
      match decrementStock st vid q.num with
      | .ok st1 => decrementLoop f st1 rest
      | .error e => .error e
    else .error ()

/-- rounding of a rational to two fractional digits, half away from zero — the
coercion Postgres applies when a value is inserted into a `NUMERIC(10,2)`
column.  Implemented with integer arithmetic so that it evaluates by kernel
reduction. -/
def decimal2 (q : ℚ) : ℚ :=
  let a := q.num.natAbs
  let n := 100 * a / q.den
  let n2 : Nat := if 2 * (100 * a % q.den) < q.den then n else n + 1
  mkRat (if q.num < 0 then -(n2 : Int) else (n2 : Int)) 100

/-- embedding of `tx.orders.create` with nested `order_items: { create: ... }`:
Prisma rejects the payload when a quantity is not an integer; otherwise the new
order row (including its lines) is appended and returned.  The binary64
`totalAmount` the handler passes is coerced by the `Decimal(10,2)` column to
its two-digit rounding on insert, and Prisma returns the stored value; the
line snapshots' `unit_price` comes from a `Decimal(10,2)` column, so it is
already two-digit and is stored unchanged. -/
def createOrder (st : DB) (userId : Int) (total : ℚ) (pm : Option String)
    (lines : List OrderItemRec) : Except Unit (DB × OrderRec) :=
  if lines.all (fun l => isJsInt l.quantity) then
    let o : OrderRec :=
      { id := st.nextOrderId
        user_id := userId
        total_amount := decimal2 total
        payment_method := jsOrDefault pm "Credit Card"
        is_paid := true
        status := "processing"
        order_items := lines }
    .ok ({ st with orders := st.orders ++ [o], nextOrderId := st.nextOrderId + 1 }, o)
  else .error ()

/-- embedding of `tx.cart_items.deleteMany({ where: { user_id: userId } })`. -/
def clearCart (st : DB) (userId : Int) : DB :=
  { st with cart_items := st.cart_items.filter fun c => decide (c.user_id ≠ userId) }

/-- embedding of `tx.activity_logs.create` for the CREATE_ORDER entry. -/
def appendLog (st : DB) (userId : Int) (orderId : Int) (itemCount : Nat) : DB :=
  { st with
    activity_logs := st.activity_logs ++
      [{ user_id := userId, action := "CREATE_ORDER"
         description := s!"Created order #{orderId} with {itemCount} items" }] }

/-- embedding of the transaction callback passed to `prisma.$transaction`:
create the order with its lines, decrement stock per item, clear the cart,
append the activity-log entry, return the new order. -/
def orderTransaction (f : Faults) (st : DB) (userId : Int) (nitems : List (Int × ℚ))
    (total : ℚ) (pm : Option String) (lines : List OrderItemRec) :
    Except Unit (DB × OrderRec) :=
  if f.failCreate then .error ()
  else
    match createOrder st userId total pm lines with
    | .error e => .error e
    | .ok (st1, o) =>
      match decrementLoop f st1 nitems with
      | .error e => .error e
      | .ok st2 =>
        if f.failClearCart then .error ()
        else
          let st3 := clearCart st2 userId
          if f.failLog then .error ()
          else .ok (appendLog st3 userId o.id nitems.length, o)

/-- embedding of the whole `POST /` handler: validation, variant fetch,
existence check, availability/total/snapshot loop, then the atomic unit.  The
returned state is the durable state after the call: unchanged on every error
(validation failures happen before any write, and a transaction failure rolls
back). -/
def placeOrder (f : Faults) (st : DB) (userId : Int) (items : List ReqItem)
    (pm : Option String) : DB × Except OrderError OrderRec :=
  if items.isEmpty then (st, .error .emptyOrder)
  else if items.any itemInvalid then (st, .error .invalidItem)
  else
    let nitems := normalizeItems items
    let ids := nitems.map Prod.fst
    let variants := findManyByIds st ids
    if variants.length ≠ ids.length then (st, .error .variantNotFound)
    else
      match buildLines variants nitems 0 [] with
      | .error e => (st, .error e)
      | .ok (total, lines) =>
        match orderTransaction f st userId nitems total pm lines with
        | .ok (st2, o) => (st2, .ok o)
        | .error _ => (st, .error .persistence)

/-! ### Embedding of the catalog variant update (admin.js, PUT /products/:id) -/

/-- fields of one entry of the `variants` array of the admin product-update
request (the `sku` field the route also passes has no column in the schema). -/
structure VariantPatch where
  size : String
  color : String
  stock_qty : Int
  price : ℚ
  deriving Repr, DecidableEq

/-- embedding of the catalog update
`prisma.product_variants.update({ where: { id }, data: { sku, size, color, stock_qty, price } })`:
fails when no row matches, otherwise overwrites the catalog fields of that
variant row.  The route also passes a `sku` field that has no column in the
schema, which the real Prisma call rejects with a validation error; the model
omits `sku` and lets the update succeed, which only strengthens any frame
property proved over it (the real call would change nothing at all). -/
def updateVariant (st : DB) (vid : Int) (p : VariantPatch) : Except Unit DB :=
  if st.variants.any (fun v => decide (v.id = vid)) then
    .ok { st with
      variants := st.variants.map fun v =>
        if v.id = vid then
          { v with size := p.size, color := p.color
                   stock_qty := p.stock_qty, price := p.price }
        else v }
  else .error ()

/-! ### Derived totals used to state the numerical claims -/

/-- total of a list of order lines computed with exact rational (fixed-point
decimal) arithmetic: the sum of unit price times quantity. -/
def exactTotal (lines : List OrderItemRec) : ℚ :=
  (lines.map fun l => l.unit_price * l.quantity).sum

/-- total of a list of order lines computed the way the handler accumulates
`totalAmount`: left-to-right over the lines, coercing the decimal unit price to
binary64, with binary64 rounding after the multiply and after the add. -/
def jsTotal (lines : List OrderItemRec) : ℚ :=
  lines.foldl (fun t l => jsAdd t (jsMul (round64 l.unit_price) l.quantity)) 0

/-! ### Concrete states and requests used by the verification witnesses -/

def wVariantA : Variant := ⟨1, "Tee", "M", "Black", "Std", 10, 5⟩

def wVariantB : Variant := ⟨2, "Cap", "L", "Blue", "Ltd", 7, 4⟩

def wDB : DB := ⟨[wVariantA, wVariantB], [⟨1, 7, 1, 2⟩], [], [], 1⟩

def wFaultSecondDecrement : Faults :=
  { failCreate := false, failDecrement := fun i => decide (i = 2)
    failClearCart := false, failLog := false }

def wOrder : OrderRec :=
  { id := 1, user_id := 7, total_amount := 20, payment_method := "PayPal"
    is_paid := true, status := "processing"
    order_items := [⟨1, "Tee", "M", "Black", "Std", 10, 2⟩] }

def wLog : LogRec := ⟨7, "CREATE_ORDER", "Created order #1 with 1 items"⟩

def wOkState : DB :=
  ⟨[⟨1, "Tee", "M", "Black", "Std", 10, 3⟩, wVariantB], [], [wOrder], [wLog], 2⟩

def wOrderCC : OrderRec := { wOrder with payment_method := "Credit Card" }

def wOkStateCC : DB := { wOkState with orders := [wOrderCC] }

def wDBCartOther : DB := ⟨[wVariantA, wVariantB], [⟨1, 9, 1, 1⟩], [], [], 1⟩

def wStateCartOther : DB :=
  ⟨[⟨1, "Tee", "M", "Black", "Std", 10, 3⟩, wVariantB], [⟨1, 9, 1, 1⟩], [wOrderCC], [wLog], 2⟩

def c2DB : DB := ⟨[⟨1, "Tee", "M", "Black", "Std", 10, 1⟩], [], [], [], 1⟩

def c3DB : DB := ⟨[⟨1, "Tee", "M", "Black", "Std", mkRat 1 10, 5⟩], [], [], [], 1⟩

def c3Order : OrderRec :=
  { id := 1, user_id := 1, total_amount := mkRat 3 10
    payment_method := "Credit Card", is_paid := true, status := "processing"
    order_items := [⟨1, "Tee", "M", "Black", "Std", mkRat 1 10, 3⟩] }

def c3State : DB :=
  ⟨[⟨1, "Tee", "M", "Black", "Std", mkRat 1 10, 2⟩], [], [c3Order],
    [⟨1, "CREATE_ORDER", "Created order #1 with 1 items"⟩], 2⟩

def c5DB : DB := ⟨[⟨1, "Tee", "M", "Black", "Std", 10, 1⟩], [], [], [], 1⟩

def c5DB2 : DB := ⟨[⟨1, "Tee", "M", "Black", "Std", 10, 2⟩], [], [], [], 1⟩

def wPatch : VariantPatch := ⟨"S", "Green", 50, 99⟩

def wPatchedState : DB :=
  { wOkState with variants := [⟨1, "Tee", "S", "Green", "Std", 99, 50⟩, wVariantB] }

/-! ### Lemmas and theorems -/

theorem clearCart_variants (st : DB) (u : Int) : (clearCart st u).variants = st.variants := rfl

theorem appendLog_variants (st : DB) (u oid : Int) (n : Nat) :
    (appendLog st u oid n).variants = st.variants := rfl

theorem createOrder_ok {st : DB} {u : Int} {total : ℚ} {pm : Option String}
    {lines : List OrderItemRec} {st1 : DB} {o : OrderRec}
    (h : createOrder st u total pm lines = .ok (st1, o)) :
    lines.all (fun l => isJsInt l.quantity) = true ∧
    o = { id := st.nextOrderId, user_id := u, total_amount := decimal2 total,
          payment_method := jsOrDefault pm "Credit Card", is_paid := true,
          status := "processing", order_items := lines } ∧
    st1 = { st with orders := st.orders ++ [o], nextOrderId := st.nextOrderId + 1 } := by
  unfold createOrder at h
  split at h
  · next hall =>
    injection h with h1
    injection h1 with h2 h3
    subst h3
    exact ⟨hall, rfl, h2.symm⟩
  · exact absurd h (by simp)

theorem decrementLoop_frame {f : Faults} :
    ∀ {l : List (Int × ℚ)} {st st' : DB}, decrementLoop f st l = .ok st' →
    st'.cart_items = st.cart_items ∧ st'.orders = st.orders ∧
    st'.activity_logs = st.activity_logs ∧ st'.nextOrderId = st.nextOrderId := by
  intro l
  induction l with
  | nil =>
    intro st st' h
    unfold decrementLoop at h
    injection h with h1
    subst h1
    exact ⟨rfl, rfl, rfl, rfl⟩
  | cons p rest ih =>
    intro st st' h
    unfold decrementLoop at h
    split at h
    · exact absurd h (by simp)
    · split at h
      · split at h
        · next st1 hdec =>
          have := ih h
          unfold decrementStock at hdec
          split at hdec
          · injection hdec with h2
            subst h2
            exact this
          · exact absurd hdec (by simp)
        · exact absurd h (by simp)
      · exact absurd h (by simp)

theorem orderTransaction_ok {f : Faults} {st : DB} {u : Int} {nitems : List (Int × ℚ)}
    {total : ℚ} {pm : Option String} {lines : List OrderItemRec} {st' : DB} {o : OrderRec}
    (h : orderTransaction f st u nitems total pm lines = .ok (st', o)) :
    f.failCreate = false ∧ f.failClearCart = false ∧ f.failLog = false ∧
    ∃ st1 st2, createOrder st u total pm lines = .ok (st1, o) ∧
      decrementLoop f st1 nitems = .ok st2 ∧
      st' = appendLog (clearCart st2 u) u o.id nitems.length := by
  unfold orderTransaction at h
  split at h
  · exact absurd h (by simp)
  · next hc =>
    split at h
    · exact absurd h (by simp)
    · next st1 o1 hcr =>
      split at h
      · exact absurd h (by simp)
      · next st2 hdec =>
        split at h
        · exact absurd h (by simp)
        · next hcl =>
          split at h
          · exact absurd h (by simp)
          · next hlg =>
            injection h with h1
            injection h1 with h2 h3
            subst h3 h2
            exact ⟨by simpa using hc, by simpa using hcl, by simpa using hlg,
              st1, st2, hcr, hdec, rfl⟩

theorem placeOrder_fst_of_error {f : Faults} {st : DB} {u : Int} {items : List ReqItem}
    {pm : Option String} {st' : DB} {e : OrderError}
    (h : placeOrder f st u items pm = (st', .error e)) : st' = st := by
  unfold placeOrder at h
  split at h
  · injection h with h1 h2; exact h1.symm
  · split at h
    · injection h with h1 h2; exact h1.symm
    · simp only [] at h
      split at h
      · injection h with h1 h2; exact h1.symm
      · split at h
        · injection h with h1 h2; exact h1.symm
        · split at h
          · injection h with h1 h2
            exact absurd h2 (by simp)
          · injection h with h1 h2; exact h1.symm

theorem placeOrder_ok_inv {f : Faults} {st : DB} {u : Int} {items : List ReqItem}
    {pm : Option String} {st' : DB} {o : OrderRec}
    (h : placeOrder f st u items pm = (st', .ok o)) :
    items.isEmpty = false ∧ items.any itemInvalid = false ∧
    (findManyByIds st ((normalizeItems items).map Prod.fst)).length =
      ((normalizeItems items).map Prod.fst).length ∧
    ∃ total lines,
      buildLines (findManyByIds st ((normalizeItems items).map Prod.fst))
        (normalizeItems items) 0 [] = .ok (total, lines) ∧
      orderTransaction f st u (normalizeItems items) total pm lines = .ok (st', o) := by
  unfold placeOrder at h
  split at h
  · injection h with h1 h2; exact absurd h2 (by simp)
  · next hne =>
    split at h
    · injection h with h1 h2; exact absurd h2 (by simp)
    · next hval =>
      simp only [] at h
      split at h
      · injection h with h1 h2; exact absurd h2 (by simp)
      · next hlen =>
        split at h
        · injection h with h1 h2; exact absurd h2 (by simp)
        · next total lines hbl =>
          split at h
          · next st2 o2 htx =>
            injection h with h1 h2
            injection h2 with h3
            subst h1 h3
            exact ⟨by simpa using hne, by simpa using hval, by simpa using hlen,
              total, lines, hbl, htx⟩
          · injection h with h1 h2; exact absurd h2 (by simp)

theorem buildLines_ok {vs : List Variant} :
    ∀ {l : List (Int × ℚ)} {t : ℚ} {acc : List OrderItemRec} {total : ℚ}
      {lines : List OrderItemRec},
    buildLines vs l t acc = .ok (total, lines) →
    ∃ tl : List OrderItemRec,
      lines = acc.reverse ++ tl ∧
      total = tl.foldl (fun tt ln => jsAdd tt (jsMul (round64 ln.unit_price) ln.quantity)) t ∧
      tl.map (fun ln => ln.quantity) = l.map Prod.snd ∧
      (∀ p ∈ l, ∃ v, vs.find? (fun v => decide (v.id = p.1)) = some v ∧
        ¬((v.stock_qty : ℚ) < p.2)) ∧
      (∀ ln ∈ tl, ∃ v p, vs.find? (fun v => decide (v.id = p.1)) = some v ∧ p ∈ l ∧
        ln = mkOrderItem v p.2) := by
  intro l
  induction l with
  | nil =>
    intro t acc total lines h
    unfold buildLines at h
    injection h with h1
    injection h1 with h2 h3
    subst h2 h3
    exact ⟨[], by simp, by simp, by simp, by simp, by simp⟩
  | cons p rest ih =>
    intro t acc total lines h
    obtain ⟨vid, q⟩ := p
    unfold buildLines at h
    split at h
    · exact absurd h (by simp)
    · next v hfind =>
      split at h
      · exact absurd h (by simp)
      · next hstock =>
        obtain ⟨tl, hlines, htot, hqty, hstocks, hsnap⟩ := ih h
        refine ⟨mkOrderItem v q :: tl, ?_, ?_, ?_, ?_, ?_⟩
        · simpa using hlines
        · simpa [mkOrderItem] using htot
        · simpa [mkOrderItem] using hqty
        · intro p hp
          rcases List.mem_cons.mp hp with hpe | hp2
          · subst hpe
            exact ⟨v, hfind, hstock⟩
          · exact hstocks p hp2
        · intro ln hln
          rcases List.mem_cons.mp hln with hle | hl2
          · exact ⟨v, (vid, q), hfind, List.mem_cons_self _ _, hle⟩
          · obtain ⟨v2, p2, hf2, hp2, he2⟩ := hsnap ln hl2
            exact ⟨v2, p2, hf2, List.mem_cons_of_mem _ hp2, he2⟩

theorem variant_id_injOn {vs : List Variant} (hN : (vs.map Variant.id).Nodup)
    {v w : Variant} (hv : v ∈ vs) (hw : w ∈ vs) (hid : v.id = w.id) : v = w :=
  List.inj_on_of_nodup_map hN hv hw hid

theorem nodup_ids_of_filter_length {vs : List Variant} {ids : List Int}
    (hN : (vs.map Variant.id).Nodup)
    (h : (vs.filter fun v => decide (v.id ∈ ids)).length = ids.length) :
    ids.Nodup := by
  have hsub : ((vs.filter fun v => decide (v.id ∈ ids)).map Variant.id).Sublist
      (vs.map Variant.id) := (List.filter_sublist vs).map _
  have hnd : ((vs.filter fun v => decide (v.id ∈ ids)).map Variant.id).Nodup :=
    hN.sublist hsub
  have hmem : ∀ x ∈ (vs.filter fun v => decide (v.id ∈ ids)).map Variant.id, x ∈ ids := by
    intro x hx
    obtain ⟨v, hvF, rfl⟩ := List.mem_map.mp hx
    simpa using List.of_mem_filter hvF
  have hsubF : ((vs.filter fun v => decide (v.id ∈ ids)).map Variant.id).toFinset ⊆
      ids.toFinset := by
    intro x hx
    exact List.mem_toFinset.mpr (hmem x (List.mem_toFinset.mp hx))
  have h1 : ((vs.filter fun v => decide (v.id ∈ ids)).map Variant.id).toFinset.card =
      (vs.filter fun v => decide (v.id ∈ ids)).length := by
    rw [List.toFinset_card_of_nodup hnd, List.length_map]
  have h2 : ids.toFinset.card ≤ ids.length := List.toFinset_card_le ids
  have h3 : ((vs.filter fun v => decide (v.id ∈ ids)).map Variant.id).toFinset.card ≤
      ids.toFinset.card := Finset.card_le_card hsubF
  have h4 : ids.toFinset.card = ids.length := by omega
  have h5 : (↑ids : Multiset Int).toFinset.card = Multiset.card (↑ids : Multiset Int) := by
    simpa [Multiset.coe_card] using h4
  exact Multiset.coe_nodup.mp (Multiset.toFinset_card_eq_card_iff_nodup.mp h5)

theorem decrementLoop_ok_nonneg {f : Faults} :
    ∀ {l : List (Int × ℚ)} {st st' : DB},
    decrementLoop f st l = .ok st' →
    (∀ v ∈ st.variants, 0 ≤ v.stock_qty) →
    (∀ p ∈ l, isJsInt p.2 = true) →
    (∀ p ∈ l, ∀ v ∈ st.variants, v.id = p.1 → p.2 ≤ (v.stock_qty : ℚ)) →
    (l.map Prod.fst).Nodup →
    ∀ v ∈ st'.variants, 0 ≤ v.stock_qty := by
  intro l
  induction l with
  | nil =>
    intro st st' h h0 _ _ _
    unfold decrementLoop at h
    injection h with h1
    subst h1
    exact h0
  | cons p rest ih =>
    intro st st' h h0 hint hsuf hnd
    obtain ⟨vid, q⟩ := p
    unfold decrementLoop at h
    split at h
    · exact absurd h (by simp)
    · split at h
      · next hq =>
        split at h
        · next st1 hdec =>
          unfold decrementStock at hdec
          split at hdec
          · injection hdec with h2
            subst h2
            have hq1 : (q.num : ℚ) = q :=
              Rat.coe_int_num_of_den_eq_one (by simpa [isJsInt] using hq)
            refine ih h ?_ ?_ ?_ (hnd.of_cons)
            · intro v hv
              obtain ⟨w, hw, rfl⟩ := List.mem_map.mp hv
              by_cases hid : w.id = vid
              · have hle : q ≤ (w.stock_qty : ℚ) :=
                  hsuf (vid, q) (List.mem_cons_self _ _) w hw hid
                have hnum : q.num ≤ w.stock_qty := by
                  rw [← hq1] at hle
                  exact_mod_cast hle
                rw [if_pos hid]
                simp only []
                omega
              · simpa [hid] using h0 w hw
            · intro p hp
              exact hint p (List.mem_cons_of_mem _ hp)
            · intro p hp v hv hvid
              obtain ⟨w, hw, rfl⟩ := List.mem_map.mp hv
              have hid_eq : w.id = p.1 := by
                rw [← hvid]
                split <;> rfl
              have hpvid : p.1 ≠ vid := by
                intro hcontra
                have hmem : p.1 ∈ rest.map Prod.fst := List.mem_map_of_mem Prod.fst hp
                rw [hcontra] at hmem
                exact (List.nodup_cons.mp hnd).1 hmem
              have hwv : ¬(w.id = vid) := by
                intro hc
                rw [hid_eq] at hc
                exact hpvid hc
              have := hsuf p (List.mem_cons_of_mem _ hp) w hw hid_eq
              simpa [hwv] using this
          · exact absurd hdec (by simp)
        · exact absurd h (by simp)
      · exact absurd h (by simp)

theorem createOrder_pm_congr {st : DB} {u : Int} {total : ℚ} {pm1 pm2 : Option String}
    {lines : List OrderItemRec}
    (h : jsOrDefault pm1 "Credit Card" = jsOrDefault pm2 "Credit Card") :
    createOrder st u total pm1 lines = createOrder st u total pm2 lines := by
  unfold createOrder
  rw [h]

theorem orderTransaction_pm_congr {f : Faults} {st : DB} {u : Int}
    {nitems : List (Int × ℚ)} {total : ℚ} {pm1 pm2 : Option String}
    {lines : List OrderItemRec}
    (h : jsOrDefault pm1 "Credit Card" = jsOrDefault pm2 "Credit Card") :
    orderTransaction f st u nitems total pm1 lines =
      orderTransaction f st u nitems total pm2 lines := by
  unfold orderTransaction
  rw [createOrder_pm_congr h]

theorem placeOrder_pm_congr {f : Faults} {st : DB} {u : Int} {items : List ReqItem}
    {pm1 pm2 : Option String}
    (h : jsOrDefault pm1 "Credit Card" = jsOrDefault pm2 "Credit Card") :
    placeOrder f st u items pm1 = placeOrder f st u items pm2 := by
  unfold placeOrder
  simp only [orderTransaction_pm_congr h]

/-- C1: if any step inside the atomic unit fails (order creation, any per-line
stock decrement, cart clearing, or the activity-log append) — or the call fails
at any earlier step — then the durable state after the call equals the state
before the call: no Order, OrderLine, stock mutation, cart deletion, or log
entry survives. -/
theorem placeOrder_all_or_nothing {f : Faults} {st : DB} {u : Int}
    {items : List ReqItem} {pm : Option String} {st' : DB} {e : OrderError}
    (h : placeOrder f st u items pm = (st', .error e)) : st' = st :=
  placeOrder_fst_of_error h

theorem placeOrder_all_or_nothing_witness :
    (placeOrder wFaultSecondDecrement wDB 7 [⟨some 1, some 2⟩, ⟨some 2, some 1⟩] none).2 =
      .error .persistence ∧
    (placeOrder wFaultSecondDecrement wDB 7 [⟨some 1, some 2⟩, ⟨some 2, some 1⟩] none).1 =
      wDB :=
  ⟨by decide,
    @placeOrder_all_or_nothing wFaultSecondDecrement wDB 7
      [⟨some 1, some 2⟩, ⟨some 2, some 1⟩] none
      (placeOrder wFaultSecondDecrement wDB 7
        [⟨some 1, some 2⟩, ⟨some 2, some 1⟩] none).1 .persistence (by decide)⟩

/-- C7: on every successful placeOrder call exactly one Order and exactly one
ActivityLogEntry are created, and the created Order has status "processing",
the paid flag set, the computed total as the Decimal(10,2) column stores it
(its two-fractional-digit rounding), and the payment-method label supplied by
the caller (or the fixed default "Credit Card"). -/
theorem placeOrder_one_order_one_log {f : Faults} {st : DB} {u : Int}
    {items : List ReqItem} {pm : Option String} {st' : DB} {o : OrderRec}
    (h : placeOrder f st u items pm = (st', .ok o)) :
    st'.orders = st.orders ++ [o] ∧
    (∃ entry : LogRec, st'.activity_logs = st.activity_logs ++ [entry] ∧
      entry.user_id = u ∧ entry.action = "CREATE_ORDER") ∧
    o.status = "processing" ∧ o.is_paid = true ∧
    o.payment_method = jsOrDefault pm "Credit Card" ∧
    ∃ total lines, buildLines (findManyByIds st ((normalizeItems items).map Prod.fst))
      (normalizeItems items) 0 [] = .ok (total, lines) ∧
      o.total_amount = decimal2 total ∧ o.order_items = lines := by
  obtain ⟨hne, hval, hlen, total, lines, hbl, htx⟩ := placeOrder_ok_inv h
  obtain ⟨hc1, hc2, hc3, st1, st2, hcr, hdec, hst'⟩ := orderTransaction_ok htx
  obtain ⟨hint, ho, hst1⟩ := createOrder_ok hcr
  obtain ⟨hcart, horders, hlogs, hnext⟩ := decrementLoop_frame hdec
  subst hst1 hst'
  refine ⟨?_,
    ⟨⟨u, "CREATE_ORDER", s!"Created order #{o.id} with {(normalizeItems items).length} items"⟩,
      ?_, rfl, rfl⟩, ?_, ?_, ?_, total, lines, hbl, ?_, ?_⟩
  · rw [show (appendLog (clearCart st2 u) u o.id (normalizeItems items).length).orders =
      st2.orders from rfl, horders]
  · rw [show (appendLog (clearCart st2 u) u o.id (normalizeItems items).length).activity_logs =
      (clearCart st2 u).activity_logs ++
        [⟨u, "CREATE_ORDER", s!"Created order #{o.id} with {(normalizeItems items).length} items"⟩]
      from rfl]
    rw [show (clearCart st2 u).activity_logs = st2.activity_logs from rfl, hlogs]
  · rw [ho]
  · rw [ho]
  · rw [ho]
  · rw [ho]
  · rw [ho]

theorem placeOrder_one_order_one_log_witness :
    placeOrder noFaults wDB 7 [⟨some 1, some 2⟩] (some "PayPal") = (wOkState, .ok wOrder) ∧
    (wOkState.orders = wDB.orders ++ [wOrder] ∧
      (∃ entry : LogRec, wOkState.activity_logs = wDB.activity_logs ++ [entry] ∧
        entry.user_id = 7 ∧ entry.action = "CREATE_ORDER") ∧
      wOrder.status = "processing" ∧ wOrder.is_paid = true ∧
      wOrder.payment_method = jsOrDefault (some "PayPal") "Credit Card" ∧
      ∃ total lines,
        buildLines (findManyByIds wDB ((normalizeItems [⟨some 1, some 2⟩]).map Prod.fst))
          (normalizeItems [⟨some 1, some 2⟩]) 0 [] = .ok (total, lines) ∧
        wOrder.total_amount = decimal2 total ∧ wOrder.order_items = lines) :=
  ⟨by decide,
    @placeOrder_one_order_one_log noFaults wDB 7 [⟨some 1, some 2⟩] (some "PayPal")
      wOkState wOrder (by decide)⟩

/-- C10: a falsy payment_method — the empty string or an absent field — yields
the default label "Credit Card" on the created Order, with the empty-string
call behaving exactly as the absent-field call; a non-empty string is stored
as given. -/
theorem placeOrder_payment_default {f : Faults} {st : DB} {u : Int}
    {items : List ReqItem} :
    placeOrder f st u items (some "") = placeOrder f st u items none ∧
    (∀ st' o, placeOrder f st u items (some "") = (st', .ok o) →
      o.payment_method = "Credit Card") ∧
    (∀ s st' o, s ≠ "" → placeOrder f st u items (some s) = (st', .ok o) →
      o.payment_method = s) := by
  refine ⟨placeOrder_pm_congr rfl, ?_, ?_⟩
  · intro st' o h
    obtain ⟨hne, hval, hlen, total, lines, hbl, htx⟩ := placeOrder_ok_inv h
    obtain ⟨hc1, hc2, hc3, st1, st2, hcr, hdec, hst'⟩ := orderTransaction_ok htx
    obtain ⟨hint, ho, hst1⟩ := createOrder_ok hcr
    rw [ho]
    simp [jsOrDefault]
  · intro s st' o hs h
    obtain ⟨hne, hval, hlen, total, lines, hbl, htx⟩ := placeOrder_ok_inv h
    obtain ⟨hc1, hc2, hc3, st1, st2, hcr, hdec, hst'⟩ := orderTransaction_ok htx
    obtain ⟨hint, ho, hst1⟩ := createOrder_ok hcr
    rw [ho]
    simp [jsOrDefault, hs]

theorem placeOrder_payment_default_witness :
    placeOrder noFaults wDB 7 [⟨some 1, some 2⟩] (some "") =
      placeOrder noFaults wDB 7 [⟨some 1, some 2⟩] none ∧
    ((placeOrder noFaults wDB 7 [⟨some 1, some 2⟩] (some "")).2 = .ok wOrderCC) ∧
    wOrderCC.payment_method = "Credit Card" := by
  refine ⟨(@placeOrder_payment_default noFaults wDB 7 [⟨some 1, some 2⟩]).1, by decide, ?_⟩
  exact (@placeOrder_payment_default noFaults wDB 7 [⟨some 1, some 2⟩]).2.1
    wOkStateCC wOrderCC (by decide)

theorem findManyByIds_setCart (st : DB) (c : List CartItem) (ids : List Int) :
    findManyByIds { st with cart_items := c } ids = findManyByIds st ids := rfl

theorem decrementStock_setCart {st : DB} {c : List CartItem} {vid a : Int} :
    decrementStock { st with cart_items := c } vid a =
      (decrementStock st vid a).map fun s => { s with cart_items := c } := by
  unfold decrementStock
  by_cases h : st.variants.any (fun v => decide (v.id = vid)) = true
  · simp [h, Except.map]
  · simp [h, Except.map]

theorem decrementLoop_setCart {f : Faults} :
    ∀ {l : List (Int × ℚ)} {st : DB} {c : List CartItem},
    decrementLoop f { st with cart_items := c } l =
      (decrementLoop f st l).map fun s => { s with cart_items := c } := by
  intro l
  induction l with
  | nil => intro st c; rfl
  | cons p rest ih =>
    intro st c
    obtain ⟨vid, q⟩ := p
    unfold decrementLoop
    by_cases hf : f.failDecrement vid = true
    · simp [hf, Except.map]
    · by_cases hq : isJsInt q = true
      · simp only [hf, hq, if_false, if_true, Bool.false_eq_true]
        rw [decrementStock_setCart]
        cases hds : decrementStock st vid q.num with
        | error e => simp [Except.map]
        | ok s1 => simp only [Except.map]; exact ih
      · simp [hf, hq, Except.map]

theorem orderTransaction_setCart {f : Faults} {st : DB} {u : Int} {nitems : List (Int × ℚ)}
    {total : ℚ} {pm : Option String} {lines : List OrderItemRec} {c : List CartItem} :
    orderTransaction f { st with cart_items := c } u nitems total pm lines =
      (orderTransaction f st u nitems total pm lines).map fun r =>
        ({ r.1 with cart_items := c.filter fun x => decide (x.user_id ≠ u) }, r.2) := by
  unfold orderTransaction
  by_cases hc : f.failCreate = true
  · simp [hc, Except.map]
  · simp only [hc, Bool.false_eq_true, if_false]
    unfold createOrder
    by_cases hint : (lines.all fun l => isJsInt l.quantity) = true
    · simp only [hint, if_true]
      rw [show ({ st with cart_items := c } : DB).nextOrderId = st.nextOrderId from rfl]
      rw [show ({ ({ st with cart_items := c } : DB) with
          orders := ({ st with cart_items := c } : DB).orders ++
            [{ id := st.nextOrderId, user_id := u, total_amount := decimal2 total,
               payment_method := jsOrDefault pm "Credit Card", is_paid := true,
               status := "processing", order_items := lines }],
          nextOrderId := ({ st with cart_items := c } : DB).nextOrderId + 1 } : DB) =
        { ({ st with
            orders := st.orders ++
              [{ id := st.nextOrderId, user_id := u, total_amount := decimal2 total,
                 payment_method := jsOrDefault pm "Credit Card", is_paid := true,
                 status := "processing", order_items := lines }],
            nextOrderId := st.nextOrderId + 1 } : DB) with cart_items := c } from rfl]
      rw [decrementLoop_setCart]
      cases hdl : decrementLoop f
          { st with
            orders := st.orders ++
              [{ id := st.nextOrderId, user_id := u, total_amount := decimal2 total,
                 payment_method := jsOrDefault pm "Credit Card", is_paid := true,
                 status := "processing", order_items := lines }],
            nextOrderId := st.nextOrderId + 1 } nitems with
      | error e => simp [Except.map]
      | ok s2 =>
        simp only [Except.map]
        by_cases hcl : f.failClearCart = true
        · simp [hcl]
        · simp only [hcl, Bool.false_eq_true, if_false]
          by_cases hlg : f.failLog = true
          · simp [hlg]
          · simp [hlg, clearCart, appendLog]
    · simp [hint, Except.map]

theorem placeOrder_setCart {f : Faults} {st : DB} {u : Int} {items : List ReqItem}
    {pm : Option String} {c : List CartItem} :
    (placeOrder f { st with cart_items := c } u items pm).2 =
      (placeOrder f st u items pm).2 := by
  unfold placeOrder
  by_cases h1 : items.isEmpty = true
  · simp [h1]
  · by_cases h2 : items.any itemInvalid = true
    · simp [h1, h2]
    · simp only [h1, h2, Bool.false_eq_true, if_false, findManyByIds_setCart]
      rcases Decidable.em ((findManyByIds st ((normalizeItems items).map Prod.fst)).length ≠
          ((normalizeItems items).map Prod.fst).length) with hC | hC
      · simp only [if_pos hC]
      · simp only [if_neg hC]
        cases hbl : buildLines (findManyByIds st ((normalizeItems items).map Prod.fst))
            (normalizeItems items) 0 [] with
        | error e => rfl
        | ok tl =>
          obtain ⟨total, lines⟩ := tl
          simp only []
          rw [@orderTransaction_setCart f st u (normalizeItems items) total pm lines c]
          cases htx : orderTransaction f st u (normalizeItems items) total pm lines with
          | error e => rfl
          | ok r => rfl

/-- C9: cart clearing inside placeOrder is idempotent and decoupled from cart
contents: a successful call leaves no cart line of the calling user; when the
user has no cart lines the call leaves the cart table unchanged; and the
outcome of the call (success and the returned order, or the error) does not
depend on the cart contents at all, so an empty cart is never an error. -/
theorem placeOrder_cart_clearing {f : Faults} {st : DB} {u : Int}
    {items : List ReqItem} {pm : Option String} :
    (∀ st' o, placeOrder f st u items pm = (st', .ok o) →
      st'.cart_items.filter (fun x => decide (x.user_id = u)) = [] ∧
      (st.cart_items.filter (fun x => decide (x.user_id = u)) = [] →
        st'.cart_items = st.cart_items)) ∧
    (∀ c, (placeOrder f { st with cart_items := c } u items pm).2 =
      (placeOrder f st u items pm).2) := by
  constructor
  · intro st' o h
    obtain ⟨hne, hval, hlen, total, lines, hbl, htx⟩ := placeOrder_ok_inv h
    obtain ⟨hc1, hc2, hc3, st1, st2, hcr, hdec, hst'⟩ := orderTransaction_ok htx
    obtain ⟨hint, ho, hst1⟩ := createOrder_ok hcr
    obtain ⟨hcart, horders, hlogs, hnext⟩ := decrementLoop_frame hdec
    subst hst1 hst'
    have hcart' : (appendLog (clearCart st2 u) u o.id
        (normalizeItems items).length).cart_items =
        st.cart_items.filter fun x => decide (x.user_id ≠ u) := by
      rw [show (appendLog (clearCart st2 u) u o.id
        (normalizeItems items).length).cart_items =
        st2.cart_items.filter (fun x => decide (x.user_id ≠ u)) from rfl]
      rw [hcart]
    constructor
    · rw [hcart']
      rw [List.filter_filter]
      apply List.filter_eq_nil_iff.mpr
      intro a ha
      simp
    · intro hempty
      rw [hcart']
      apply List.filter_eq_self.mpr
      intro a ha
      have : ¬(decide (a.user_id = u) = true) := by
        intro hdec2
        have := List.filter_eq_nil_iff.mp hempty a ha
        exact this hdec2
      simpa using this
  · intro c
    exact placeOrder_setCart

theorem placeOrder_cart_clearing_witness :
    placeOrder noFaults wDBCartOther 7 [⟨some 1, some 2⟩] none =
      (wStateCartOther, .ok wOrderCC) ∧
    wStateCartOther.cart_items.filter (fun x => decide (x.user_id = 7)) = [] ∧
    wStateCartOther.cart_items = wDBCartOther.cart_items :=
  ⟨by decide,
    (((@placeOrder_cart_clearing noFaults wDBCartOther 7 [⟨some 1, some 2⟩] none).1
      wStateCartOther wOrderCC (by decide)).1),
    (((@placeOrder_cart_clearing noFaults wDBCartOther 7 [⟨some 1, some 2⟩] none).1
      wStateCartOther wOrderCC (by decide)).2 (by decide))⟩

/-- C2 counterexample: the embedded stock decrement
(`tx.product_variants.update` with `stock_qty: { decrement: ... }`) does not
fail when the decremented amount exceeds the current stock — it succeeds and
stores a negative quantity (the `Int` column has no check constraint and the
code performs no conditional update), refuting the claim that the decrement
fails rather than proceeding. -/
theorem decrementStock_no_negative_guard :
    decrementStock c2DB 1 2 =
      .ok { c2DB with variants := [⟨1, "Tee", "M", "Black", "Std", 10, -1⟩] } ∧
    (1 : Int) < 2 := by decide

/-- C2 (amended): in the sequential model every placeOrder call preserves
non-negativity of all stock quantities (on a well-formed state with distinct
variant ids, which also makes the existence check reject duplicate request
ids), because the read-time validation checks each requested quantity against
the snapshot; the decrement itself remains unconditional. -/
theorem placeOrder_stock_nonneg {f : Faults} {st : DB} {u : Int}
    {items : List ReqItem} {pm : Option String}
    (hN : (st.variants.map Variant.id).Nodup)
    (h0 : ∀ v ∈ st.variants, 0 ≤ v.stock_qty) :
    ∀ v ∈ (placeOrder f st u items pm).1.variants, 0 ≤ v.stock_qty := by
  rcases hres : placeOrder f st u items pm with ⟨st', r⟩
  cases r with
  | error e =>
    have := placeOrder_fst_of_error hres
    subst this
    simpa using h0
  | ok o =>
    obtain ⟨hne, hval, hlen, total, lines, hbl, htx⟩ := placeOrder_ok_inv hres
    obtain ⟨hc1, hc2, hc3, st1, st2, hcr, hdec, hst'⟩ := orderTransaction_ok htx
    obtain ⟨hint, ho, hst1⟩ := createOrder_ok hcr
    obtain ⟨tl, hlines, htot, hqty, hstocks, hsnap⟩ := buildLines_ok hbl
    have htl : lines = tl := by simpa using hlines
    subst htl
    have hnodup : ((normalizeItems items).map Prod.fst).Nodup :=
      nodup_ids_of_filter_length hN hlen
    have hvars2 : ∀ v ∈ st2.variants, 0 ≤ v.stock_qty := by
      apply decrementLoop_ok_nonneg (hst1 ▸ hdec)
      · intro v hv
        exact h0 v hv
      · intro p hp
        have hmem : p.2 ∈ lines.map fun ln => ln.quantity := by
          rw [hqty]
          exact List.mem_map_of_mem Prod.snd hp
        obtain ⟨ln, hln, he⟩ := List.mem_map.mp hmem
        have := List.all_eq_true.mp hint ln hln
        rwa [he] at this
      · intro p hp w hw hwid
        obtain ⟨vf, hfind, hnl⟩ := hstocks p hp
        have hvfid : vf.id = p.1 := by
          have := List.find?_some hfind
          simpa using this
        have hvfmem : vf ∈ st.variants :=
          List.mem_of_mem_filter (List.mem_of_find?_eq_some hfind)
        have hw_eq : w = vf := variant_id_injOn hN hw hvfmem (by rw [hwid, hvfid])
        subst hw_eq
        exact not_lt.mp hnl
      · exact hnodup
    subst hst'
    intro v hv
    exact hvars2 v hv

theorem placeOrder_stock_nonneg_witness :
    (wDB.variants.map Variant.id).Nodup ∧
    ∀ v ∈ (placeOrder noFaults wDB 7 [⟨some 1, some 2⟩] none).1.variants,
      0 ≤ v.stock_qty :=
  ⟨by decide,
    @placeOrder_stock_nonneg noFaults wDB 7 [⟨some 1, some 2⟩] none (by decide) (by decide)⟩

/-- C3 counterexample: at unit price 0.10 and quantity 3 the `totalAmount` the
handler accumulates and passes to `tx.orders.create` — the value the
availability/total loop produces, also emitted in the success info log — is
the binary64 value 0.30000000000000004, not the exact fixed-point sum 0.30: so
the total is not computed with exact fixed-point decimal arithmetic and
floating-point arithmetic is used on monetary values, refuting the claim as
stated.  The durable order row nevertheless carries 0.30 at this input,
because the NUMERIC(10,2) column rounds the inserted value to two digits. -/
theorem totalAmount_float_drift :
    buildLines (findManyByIds c3DB ((normalizeItems [⟨some 1, some 3⟩]).map Prod.fst))
      (normalizeItems [⟨some 1, some 3⟩]) 0 [] =
      .ok (mkRat 1351079888211149 4503599627370496, c3Order.order_items) ∧
    mkRat 1351079888211149 4503599627370496 ≠ exactTotal c3Order.order_items ∧
    exactTotal c3Order.order_items = mkRat 3 10 ∧
    (placeOrder noFaults c3DB 1 [⟨some 1, some 3⟩] none).2 = .ok c3Order ∧
    c3Order.total_amount = mkRat 3 10 := by
  refine ⟨by decide, ?_, ?_, by decide, by decide⟩
  · show mkRat 1351079888211149 4503599627370496 ≠ exactTotal c3Order.order_items
    simp only [c3Order, exactTotal, List.map_cons, List.map_nil, List.sum_cons,
      List.sum_nil, Rat.mkRat_eq_divInt, Rat.divInt_eq_div]
    norm_num
  · show exactTotal c3Order.order_items = mkRat 3 10
    simp only [c3Order, exactTotal, List.map_cons, List.map_nil, List.sum_cons,
      List.sum_nil, Rat.mkRat_eq_divInt, Rat.divInt_eq_div]
    norm_num

/-- C3 (amended): the created Order's total_amount equals the two-fractional-
digit rounding (the NUMERIC(10,2) column coercion) of the binary64
floating-point (JS number) left-to-right accumulation of unit price times
quantity over its own order lines — the decimal unit price is coerced to
binary64 and every multiply and add rounds, so the accumulation is floating
point, not exact fixed-point arithmetic; the column rounding restores the
exact decimal sum only while the accumulated float error stays below half a
cent. -/
theorem placeOrder_total_js {f : Faults} {st : DB} {u : Int}
    {items : List ReqItem} {pm : Option String} {st' : DB} {o : OrderRec}
    (h : placeOrder f st u items pm = (st', .ok o)) :
    o.total_amount = decimal2 (jsTotal o.order_items) := by
  obtain ⟨hne, hval, hlen, total, lines, hbl, htx⟩ := placeOrder_ok_inv h
  obtain ⟨hc1, hc2, hc3, st1, st2, hcr, hdec, hst'⟩ := orderTransaction_ok htx
  obtain ⟨hint, ho, hst1⟩ := createOrder_ok hcr
  obtain ⟨tl, hlines, htot, hqty, hstocks, hsnap⟩ := buildLines_ok hbl
  have htl : lines = tl := by simpa using hlines
  subst htl
  rw [ho]
  show decimal2 total = decimal2 (jsTotal lines)
  rw [show jsTotal lines = total from by simpa [jsTotal] using htot.symm]

theorem placeOrder_total_js_witness :
    (placeOrder noFaults c3DB 1 [⟨some 1, some 3⟩] none).2 = .ok c3Order ∧
    c3Order.total_amount = decimal2 (jsTotal c3Order.order_items) :=
  ⟨by decide,
    @placeOrder_total_js noFaults c3DB 1 [⟨some 1, some 3⟩] none c3State c3Order (by decide)⟩

theorem buildLines_error {vs : List Variant} :
    ∀ {l : List (Int × ℚ)} {t : ℚ} {acc : List OrderItemRec} {e : OrderError},
    buildLines vs l t acc = .error e →
    e = .persistence ∨ ∃ m, e = .insufficientStock m := by
  intro l
  induction l with
  | nil =>
    intro t acc e h
    exact absurd h (by simp [buildLines])
  | cons p rest ih =>
    intro t acc e h
    obtain ⟨vid, q⟩ := p
    unfold buildLines at h
    split at h
    · injection h with h1
      exact Or.inl h1.symm
    · split at h
      · injection h with h1
        exact Or.inr ⟨_, h1.symm⟩
      · exact ih h

/-- C4 counterexample: a request whose two items both reference the existing
variant 1 is rejected with the variant-not-found error, because the code
compares the count of found variants against the non-deduplicated list of
requested ids — refuting the claim that existence validation passes whenever
all referenced variants exist. -/
theorem duplicate_ids_rejected :
    (placeOrder noFaults wDB 7 [⟨some 1, some 1⟩, ⟨some 1, some 1⟩] none).2 =
      .error .variantNotFound ∧
    ((normalizeItems [⟨some 1, some 1⟩, ⟨some 1, some 1⟩]).map Prod.fst).all
      (fun i => wDB.variants.any fun v => decide (v.id = i)) = true ∧
    (placeOrder noFaults wDB 7 [⟨some 1, some 1⟩, ⟨some 1, some 1⟩] none).1 = wDB := by
  decide

/-- C4 (amended): for a request that passes item validation, placeOrder fails
with the variant-not-found error exactly when the number of variants found for
the requested id list differs from the number of items (ids are not
deduplicated, so a repeated existing id also triggers the error), and on that
failure the state is unchanged. -/
theorem variantNotFound_iff {f : Faults} {st : DB} {u : Int} {items : List ReqItem}
    {pm : Option String}
    (hne : items ≠ []) (hval : ∀ it ∈ items, itemInvalid it = false) :
    ((placeOrder f st u items pm).2 = .error .variantNotFound ↔
      (findManyByIds st ((normalizeItems items).map Prod.fst)).length ≠ items.length) ∧
    ((placeOrder f st u items pm).2 = .error .variantNotFound →
      (placeOrder f st u items pm).1 = st) := by
  have hie : items.isEmpty = false := by
    cases items with
    | nil => exact absurd rfl hne
    | cons a l => rfl
  have hany : items.any itemInvalid = false := by
    rw [List.any_eq_false]
    intro x hx
    simp [hval x hx]
  have hidlen : ((normalizeItems items).map Prod.fst).length = items.length := by
    simp [normalizeItems]
  constructor
  · unfold placeOrder
    simp only [hie, hany, Bool.false_eq_true, if_false]
    rcases Decidable.em ((findManyByIds st ((normalizeItems items).map Prod.fst)).length ≠
        ((normalizeItems items).map Prod.fst).length) with hC | hC
    · simp only [if_pos hC]
      constructor
      · intro _
        rw [hidlen] at hC
        exact hC
      · intro _
        trivial
    · simp only [if_neg hC]
      have hC2 : ¬((findManyByIds st ((normalizeItems items).map Prod.fst)).length ≠
          items.length) := by
        rw [hidlen] at hC
        exact hC
      constructor
      · intro habs
        exfalso
        rcases hbl : buildLines (findManyByIds st ((normalizeItems items).map Prod.fst))
            (normalizeItems items) 0 [] with e | tl
        · rw [hbl] at habs
          simp only [] at habs
          rcases buildLines_error hbl with h1 | ⟨m, h1⟩ <;> subst h1 <;> simp at habs
        · obtain ⟨total, lines⟩ := tl
          rw [hbl] at habs
          simp only [] at habs
          rcases htx : orderTransaction f st u (normalizeItems items) total pm lines
            with e2 | r
          · rw [htx] at habs
            simp at habs
          · obtain ⟨st2, o⟩ := r
            rw [htx] at habs
            simp at habs
      · intro habs
        exact absurd habs hC2
  · intro habs
    rcases hres : placeOrder f st u items pm with ⟨st2, r⟩
    rw [hres] at habs
    cases r with
    | error e =>
      exact placeOrder_fst_of_error hres
    | ok o => simp at habs

theorem variantNotFound_iff_witness :
    ([(⟨some 1, some 1⟩ : ReqItem), ⟨some 1, some 1⟩] ≠ []) ∧
    (placeOrder noFaults wDB 7 [⟨some 1, some 1⟩, ⟨some 1, some 1⟩] none).2 =
      .error .variantNotFound :=
  ⟨by decide,
    (@variantNotFound_iff noFaults wDB 7 [⟨some 1, some 1⟩, ⟨some 1, some 1⟩] none
      (by decide) (by decide)).1.mpr (by decide)⟩

theorem buildLines_first_insufficient {vs : List Variant} {v : Variant} :
    ∀ {l1 : List (Int × ℚ)} {p : Int × ℚ} {l2 : List (Int × ℚ)} {t : ℚ}
      {acc : List OrderItemRec},
    (∀ p1 ∈ l1, ∃ w, vs.find? (fun x => decide (x.id = p1.1)) = some w ∧
      ¬((w.stock_qty : ℚ) < p1.2)) →
    vs.find? (fun x => decide (x.id = p.1)) = some v →
    (v.stock_qty : ℚ) < p.2 →
    buildLines vs (l1 ++ p :: l2) t acc = .error (.insufficientStock (stockMessage v)) := by
  intro l1
  induction l1 with
  | nil =>
    intro p l2 t acc hok hfind hlow
    obtain ⟨vid, q⟩ := p
    rw [List.nil_append]
    unfold buildLines
    rw [hfind]
    simp only []
    rw [if_pos hlow]
  | cons p1 rest ih =>
    intro p l2 t acc hok hfind hlow
    obtain ⟨vid1, q1⟩ := p1
    obtain ⟨w, hw, hnl⟩ := hok (vid1, q1) (List.mem_cons_self _ _)
    rw [List.cons_append]
    unfold buildLines
    rw [hw]
    simp only []
    rw [if_neg hnl]
    exact ih (fun p2 hp2 => hok p2 (List.mem_cons_of_mem _ hp2)) hfind hlow

/-- C5 counterexample: the insufficient-stock error surfaced by placeOrder is
identical for requested quantity 5 and requested quantity 7, and identical for
available stock 1 and available stock 2 — so the error does not carry the
requested or available quantity (the response message carries only product
name, color, and size; the quantities go to the warn log, not the error). -/
theorem insufficientStock_payload_lacks_quantities :
    (placeOrder noFaults c5DB 7 [⟨some 1, some 5⟩] none).2 =
      (placeOrder noFaults c5DB 7 [⟨some 1, some 7⟩] none).2 ∧
    (placeOrder noFaults c5DB 7 [⟨some 1, some 5⟩] none).2 =
      (placeOrder noFaults c5DB2 7 [⟨some 1, some 5⟩] none).2 ∧
    (placeOrder noFaults c5DB 7 [⟨some 1, some 5⟩] none).2 =
      .error (.insufficientStock "Not enough stock for \"Tee\" (Black, M)") := by
  decide

/-- C5 (amended): for a request that passes item validation and the existence
check, if every item before `it` in submission order is sufficiently stocked
and `it` resolves to a variant `v` with stock below the requested quantity,
then placeOrder fails with the insufficient-stock error built from `v` — its
message carries the product name, color and size (but not the requested or
available quantities) — and the state is unchanged. -/
theorem insufficientStock_first {f : Faults} {st : DB} {u : Int} {pm : Option String}
    {l1 l2 : List ReqItem} {it : ReqItem} {v : Variant}
    (hval : ∀ x ∈ l1 ++ it :: l2, itemInvalid x = false)
    (hlen : (findManyByIds st ((normalizeItems (l1 ++ it :: l2)).map Prod.fst)).length =
      (l1 ++ it :: l2).length)
    (hok : ∀ p ∈ normalizeItems l1, ∃ w,
      (findManyByIds st ((normalizeItems (l1 ++ it :: l2)).map Prod.fst)).find?
        (fun x => decide (x.id = p.1)) = some w ∧ ¬((w.stock_qty : ℚ) < p.2))
    (hfind : (findManyByIds st ((normalizeItems (l1 ++ it :: l2)).map Prod.fst)).find?
      (fun x => decide (x.id = it.variant_id.getD 0)) = some v)
    (hlow : (v.stock_qty : ℚ) < it.quantity.getD 0) :
    placeOrder f st u (l1 ++ it :: l2) pm =
      (st, .error (.insufficientStock (stockMessage v))) := by
  have hie : (l1 ++ it :: l2).isEmpty = false := by
    cases l1 <;> rfl
  have hany : (l1 ++ it :: l2).any itemInvalid = false := by
    rw [List.any_eq_false]
    intro x hx
    simp [hval x hx]
  unfold placeOrder
  simp only [hie, hany, Bool.false_eq_true, if_false]
  have hCfalse : ¬((findManyByIds st
      ((normalizeItems (l1 ++ it :: l2)).map Prod.fst)).length ≠
      ((normalizeItems (l1 ++ it :: l2)).map Prod.fst).length) := by
    rw [show ((normalizeItems (l1 ++ it :: l2)).map Prod.fst).length =
      (l1 ++ it :: l2).length from by simp [normalizeItems]]
    simpa using hlen
  simp only [if_neg hCfalse]
  have hsplit : normalizeItems (l1 ++ it :: l2) =
      normalizeItems l1 ++
        (it.variant_id.getD 0, it.quantity.getD 0) :: normalizeItems l2 := by
    simp [normalizeItems]
  have hres := @buildLines_first_insufficient
    (findManyByIds st ((normalizeItems (l1 ++ it :: l2)).map Prod.fst)) v
    (normalizeItems l1) (it.variant_id.getD 0, it.quantity.getD 0)
    (normalizeItems l2) 0 [] hok hfind hlow
  rw [hsplit] at hres
  rw [hsplit, hres]

theorem insufficientStock_first_witness :
    placeOrder noFaults wDB 7 [⟨some 1, some 2⟩, ⟨some 2, some 9⟩] none =
      (wDB, .error (.insufficientStock (stockMessage wVariantB))) := by
  have happ : ([⟨some 1, some 2⟩, ⟨some 2, some 9⟩] : List ReqItem) =
      [⟨some 1, some 2⟩] ++ (⟨some 2, some 9⟩ : ReqItem) :: [] := rfl
  rw [happ]
  exact @insufficientStock_first noFaults wDB 7 none [⟨some 1, some 2⟩] []
    ⟨some 2, some 9⟩ wVariantB (by decide) (by decide)
    (by
      intro p hp
      have hp2 : p = ((1 : Int), (2 : ℚ)) := by
        simpa [normalizeItems] using hp
      subst hp2
      exact ⟨wVariantA, by decide, by decide⟩)
    (by decide) (by decide)

theorem itemInvalid_iff {it : ReqItem} :
    itemInvalid it = true ↔
      (it.variant_id = none ∨ it.variant_id = some 0 ∨ it.quantity = none ∨
        it.quantity = some 0 ∨ ∃ q, it.quantity = some q ∧ q < 1) := by
  obtain ⟨vid, q⟩ := it
  cases vid with
  | none => simp [itemInvalid]
  | some v =>
    cases q with
    | none => simp [itemInvalid]
    | some q0 =>
      simp [itemInvalid]

/-- C6 counterexample: an item with the non-integer quantity 3/2 (not a
positive integer) passes the validation step — placeOrder proceeds past it and
fails only inside the atomic unit, surfacing the persistence (500) error, not
the invalid-item error, and store access does occur. -/
theorem fractional_quantity_not_invalid :
    (placeOrder noFaults wDB 7 [⟨some 1, some (mkRat 3 2)⟩] none).2 =
      .error .persistence ∧
    (placeOrder noFaults wDB 7 [⟨some 1, some (mkRat 3 2)⟩] none).2 ≠
      .error .invalidItem ∧
    ¬(∃ n : Int, (mkRat 3 2) = (n : ℚ)) := by
  refine ⟨by decide, by decide, ?_⟩
  rintro ⟨n, hn⟩
  have hd := congrArg Rat.den hn
  rw [Rat.den_intCast] at hd
  exact absurd hd (by decide)

/-- C6 (amended): placeOrder fails with EmptyOrderError on the empty items
list and with InvalidItemError when some item lacks a variant id (absent or 0)
or lacks a quantity or has a quantity below 1 — in both cases before any store
access (the result does not depend on the state, which is returned unchanged);
a non-integer quantity of at least 1, however, passes this validation. -/
theorem validation_failfast {f : Faults} {st stB : DB} {u : Int}
    {items : List ReqItem} {pm : Option String} :
    (items = [] → placeOrder f st u items pm = (st, .error .emptyOrder)) ∧
    ((∃ it ∈ items, it.variant_id = none ∨ it.variant_id = some 0 ∨
        it.quantity = none ∨ it.quantity = some 0 ∨
        ∃ q, it.quantity = some q ∧ q < 1) →
      placeOrder f st u items pm = (st, .error .invalidItem) ∧
      (placeOrder f st u items pm).2 = (placeOrder f stB u items pm).2) := by
  constructor
  · intro h
    subst h
    rfl
  · rintro ⟨it, hit, hbad⟩
    have hinv : itemInvalid it = true := itemInvalid_iff.mpr hbad
    have hany : items.any itemInvalid = true := List.any_eq_true.mpr ⟨it, hit, hinv⟩
    have hie : items.isEmpty = false := by
      cases items with
      | nil => cases hit
      | cons a l => rfl
    have hmain : ∀ s : DB, placeOrder f s u items pm = (s, .error .invalidItem) := by
      intro s
      unfold placeOrder
      simp [hie, hany]
    exact ⟨hmain st, by rw [hmain st, hmain stB]⟩

theorem validation_failfast_witness :
    placeOrder noFaults wDB 7 [] none = (wDB, .error .emptyOrder) ∧
    placeOrder noFaults wDB 7 [⟨none, some 1⟩] none = (wDB, .error .invalidItem) :=
  ⟨(@validation_failfast noFaults wDB wDB 7 [] none).1 rfl,
    ((@validation_failfast noFaults wDB wOkState 7 [⟨none, some 1⟩] none).2
      ⟨⟨none, some 1⟩, by decide, Or.inl rfl⟩).1⟩

theorem updateVariant_frame {st : DB} {vid : Int} {q : VariantPatch} {st2 : DB}
    (h : updateVariant st vid q = .ok st2) :
    st2.orders = st.orders ∧ st2.cart_items = st.cart_items ∧
    st2.activity_logs = st.activity_logs := by
  unfold updateVariant at h
  split at h
  · injection h with h1
    subst h1
    exact ⟨rfl, rfl, rfl⟩
  · exact absurd h (by simp)

/-- C8: every order line of a successful placeOrder call is a snapshot of a
variant of the pre-call state — it stores that variant's product name, size,
color, edition and unit price as they were at placement time — and a later
catalog update of any variant (price or any other field) leaves the orders
table, hence every stored OrderLine's unit_price and every Order's
total_amount, unchanged. -/
theorem orderLines_price_snapshot {f : Faults} {st : DB} {u : Int}
    {items : List ReqItem} {pm : Option String} {st' : DB} {o : OrderRec}
    (h : placeOrder f st u items pm = (st', .ok o)) :
    (∀ ln ∈ o.order_items, ∃ v ∈ st.variants,
      ln.variant_id = v.id ∧ ln.product_name = v.product_name ∧ ln.size = v.size ∧
      ln.color = v.color ∧ ln.edition = v.edition ∧ ln.unit_price = v.price) ∧
    (∀ vid q st2, updateVariant st' vid q = .ok st2 → st2.orders = st'.orders) := by
  constructor
  · intro ln hln
    obtain ⟨hne, hval, hlen, total, lines, hbl, htx⟩ := placeOrder_ok_inv h
    obtain ⟨hc1, hc2, hc3, st1, st2, hcr, hdec, hst'⟩ := orderTransaction_ok htx
    obtain ⟨hint, ho, hst1⟩ := createOrder_ok hcr
    obtain ⟨tl, hlines, htot, hqty, hstocks, hsnap⟩ := buildLines_ok hbl
    have htl : lines = tl := by simpa using hlines
    subst htl
    have hoi : o.order_items = lines := by rw [ho]
    rw [hoi] at hln
    obtain ⟨v2, p2, hf2, hp2, he2⟩ := hsnap ln hln
    have hv2 : v2 ∈ findManyByIds st ((normalizeItems items).map Prod.fst) :=
      List.mem_of_find?_eq_some hf2
    unfold findManyByIds at hv2
    refine ⟨v2, List.mem_of_mem_filter hv2, ?_⟩
    subst he2
    simp [mkOrderItem]
  · intro vid q st2 hup
    exact (updateVariant_frame hup).1

theorem orderLines_price_snapshot_witness :
    placeOrder noFaults wDB 7 [⟨some 1, some 2⟩] (some "PayPal") =
      (wOkState, .ok wOrder) ∧
    updateVariant wOkState 1 wPatch = .ok wPatchedState ∧
    wPatchedState.orders = wOkState.orders :=
  ⟨by decide, by decide,
    (@orderLines_price_snapshot noFaults wDB 7 [⟨some 1, some 2⟩] (some "PayPal")
      wOkState wOrder (by decide)).2 1 wPatch wPatchedState (by decide)⟩

end Shop
